import Mathlib

/-!
Shallow embedding of the ppz_weblog telemetry decoding backend
(src/backend): the text decoder `SimpleDataParser`, the binary decoder
`DataParser`, the schema parser `LogParser`, and the parser-version
manager `ParserVersionManager`, together with the data model from
src/backend/models.  Python strings are modelled as `List Char`, bytes as
`List Nat` (each entry < 256), Python floats as exact values (`PFloat`:
a rational, an infinity, or nan), and Python dicts as association lists
with replace-or-append insertion.
-/

/-- Model of a Python float value: a finite value kept exactly as a
rational, a signed infinity, or nan.  Rounding of finite decimal
literals to IEEE doubles is not modelled; every claim only compares
values produced by the same parse. -/
inductive PFloat where
  | finite (q : Rat)
  | inf (neg : Bool)
  | nan
deriving DecidableEq, Repr

/-- Model of a scalar Python value as produced by the decoders:
int, float, bool, str or None. -/
inductive PyVal where
  | pint (n : Int)
  | pfloat (x : PFloat)
  | pbool (b : Bool)
  | pstr (s : String)
  | pnone
deriving DecidableEq, Repr

/-- Model of a value stored in a `parsed_fields` dict: either a scalar
or a list of scalars (the only shapes the source ever stores). -/
inductive FieldValue where
  | scalar (v : PyVal)
  | vlist (vs : List PyVal)
deriving DecidableEq, Repr

/-- ASCII whitespace recognised by Python `str.split()` / `str.strip()`
(space, tab, newline, carriage return, vertical tab, form feed).
Non-ASCII Unicode whitespace is not modelled. -/
def pyIsSpace (c : Char) : Bool :=
  c = ' ' || c = '\t' || c = '\n' || c = '\x0d' || c = '\x0b' || c = '\x0c'

/-- Python `str.strip()` on a character list. -/
def pyStrip (cs : List Char) : List Char :=
  ((cs.dropWhile pyIsSpace).reverse.dropWhile pyIsSpace).reverse

/-- Helper for `pySplitWs`; the second argument is the current token,
reversed. -/
def pySplitWsAux : List Char → List Char → List (List Char)
  | [], acc => if acc.isEmpty then [] else [acc.reverse]
  | c :: rest, acc =>
    if pyIsSpace c then
      if acc.isEmpty then pySplitWsAux rest []
      else acc.reverse :: pySplitWsAux rest []
    else pySplitWsAux rest (c :: acc)

/-- Python `str.split()` with no separator: split on runs of whitespace,
discarding empty tokens. -/
def pySplitWs (cs : List Char) : List (List Char) :=
  pySplitWsAux cs []

/-- Helper for `splitOnChar`; the accumulator is the current piece,
reversed. -/
def splitOnCharAux (sep : Char) : List Char → List Char → List (List Char)
  | [], acc => [acc.reverse]
  | c :: rest, acc =>
    if c = sep then acc.reverse :: splitOnCharAux sep rest []
    else splitOnCharAux sep rest (c :: acc)

/-- Python `str.split(sep)` with an explicit one-character separator:
empty pieces are kept. -/
def splitOnChar (sep : Char) (cs : List Char) : List (List Char) :=
  splitOnCharAux sep cs []

/-- Python `str.lower()` on a character list (ASCII case folding, which
is all the source's tokens use). -/
def toLowerCL (cs : List Char) : List Char :=
  cs.map Char.toLower

/-- Characters Python `str.splitlines()` treats as line breaks, other
than the carriage return handled separately (for the CR LF pair). -/
def isLineBreakChar (c : Char) : Bool :=
  c = '\n' || c = '\x0b' || c = '\x0c' || c = '\x1c' || c = '\x1d' ||
  c = '\x1e' || c = '\x85' || c = ' ' || c = ' '

/-- Helper for `splitlinesCL`; the accumulator is the current line,
reversed. -/
def splitlinesAux : List Char → List Char → List (List Char)
  | [], acc => if acc.isEmpty then [] else [acc.reverse]
  | '\x0d' :: '\n' :: rest, acc => acc.reverse :: splitlinesAux rest []
  | c :: rest, acc =>
    if c = '\x0d' || isLineBreakChar c then acc.reverse :: splitlinesAux rest []
    else splitlinesAux rest (c :: acc)

/-- Python `str.splitlines()`: split on line-break characters, treating
CR LF as a single break and producing no trailing empty line. -/
def splitlinesCL (cs : List Char) : List (List Char) :=
  splitlinesAux cs []

/-- Value of a list of decimal digit characters, most significant
first. -/
def digitsVal (ds : List Char) : Nat :=
  ds.foldl (fun n c => 10 * n + (c.toNat - '0'.toNat)) 0

/-- Parse a non-empty all-digit character list to a natural number;
`none` otherwise. -/
def natDigits (ds : List Char) : Option Nat :=
  if ds.isEmpty then none
  else if ds.all Char.isDigit then some (digitsVal ds) else none

/-- Model of Python `int(str)` restricted to an optional sign followed
by ASCII decimal digits (underscore separators and non-ASCII digit
forms are not modelled; no input in this development uses them). -/
def parsePyInt (cs : List Char) : Option Int :=
  match pyStrip cs with
  | '-' :: ds => (natDigits ds).map (fun n => -(n : Int))
  | '+' :: ds => (natDigits ds).map (fun n => (n : Int))
  | ds => (natDigits ds).map (fun n => (n : Int))

/-- Parse the optional exponent part of a float literal; the whole
remainder must be consumed.  Returns the exponent value. -/
def parseExpVal : List Char → Option Int
  | [] => some 0
  | c :: r =>
    if c = 'e' ∨ c = 'E' then
      match r with
      | '-' :: t => (natDigits t).map (fun e => -(e : Int))
      | '+' :: t => (natDigits t).map (fun e => (e : Int))
      | t => (natDigits t).map (fun e => (e : Int))
    else none

/-- Assemble a rational from a sign, a mantissa read as an integer, the
number of fractional digits, and a decimal exponent.  Built with
`mkRat` over `Nat` arithmetic so that concrete values reduce in the
kernel. -/
def ratOfParts (neg : Bool) (m fracLen : Nat) (e : Int) : Rat :=
  match e with
  | Int.ofNat k =>
    mkRat (if neg then -((m * 10 ^ k : Nat) : Int) else ((m * 10 ^ k : Nat) : Int))
      (10 ^ fracLen)
  | Int.negSucc k =>
    mkRat (if neg then -(m : Int) else (m : Int)) (10 ^ fracLen * 10 ^ (k + 1))

/-- Parse an unsigned decimal float literal (digits, optional point,
optional exponent) into mantissa, fractional length, and exponent. -/
def parseDecimalParts (cs : List Char) : Option (Nat × Nat × Int) :=
  let ip := cs.takeWhile Char.isDigit
  let rest := cs.dropWhile Char.isDigit
  match rest with
  | '.' :: r2 =>
    let fp := r2.takeWhile Char.isDigit
    let r3 := r2.dropWhile Char.isDigit
    if ip.isEmpty && fp.isEmpty then none
    else (parseExpVal r3).map (fun e => (digitsVal (ip ++ fp), fp.length, e))
  | _ =>
    if ip.isEmpty then none
    else (parseExpVal rest).map (fun e => (digitsVal ip, 0, e))

/-- Model of Python `float(str)`: optional sign, then `inf`, `infinity`
or `nan` (case-insensitive) or a decimal literal.  Finite values are
kept exactly as rationals (IEEE rounding and overflow to infinity at
about 1.8e308 are not modelled; no claim compares a parsed finite value
with anything but the result of the same parse). -/
def parsePyFloat (cs : List Char) : Option PFloat :=
  let s := pyStrip cs
  let signed : Bool × List Char :=
    match s with
    | '-' :: t => (true, t)
    | '+' :: t => (false, t)
    | t => (false, t)
  let neg := signed.1
  let body := signed.2
  let lw := toLowerCL body
  if lw = "inf".data ∨ lw = "infinity".data then some (PFloat.inf neg)
  else if lw = "nan".data then some PFloat.nan
  else
    (parseDecimalParts body).map
      (fun p => PFloat.finite (ratOfParts neg p.1 p.2.1 p.2.2))

/-- Model of `SimpleDataParser._convert_value`
(src/backend/parsers/simple_data_parser.py, lines 148-174): strip, map
the empty token and a lone minus sign to None, try an integer parse
when the token has no decimal point and no exponent marker and a float
parse otherwise, then recognise boolean and null spellings, and keep
anything else as a string. -/
def SimpleDataParser.convert_value (s : List Char) : PyVal :=
  let v := pyStrip s
  if v = [] ∨ v = ['-'] then PyVal.pnone
  else
    let numeric : Option PyVal :=
      if '.' ∉ v ∧ 'e' ∉ toLowerCL v then
        (parsePyInt v).map PyVal.pint
      else
        (parsePyFloat v).map PyVal.pfloat
    match numeric with
    | some x => x
    | none =>
      let lw := toLowerCL v
      if lw = "true".data ∨ lw = "yes".data ∨ lw = "1".data then
        PyVal.pbool true
      else if lw = "false".data ∨ lw = "no".data ∨ lw = "0".data then
        PyVal.pbool false
      else if lw = "nan".data ∨ lw = "null".data ∨ lw = "none".data then
        PyVal.pnone
      else PyVal.pstr (String.mk v)


/-- Whether a byte is a UTF-8 continuation byte. -/
def isContByte (b : Nat) : Bool :=
  0x80 ≤ b && b ≤ 0xBF

/-- Validity of the first continuation byte of a three-byte sequence
(excludes overlong encodings and surrogates, as CPython does). -/
def cont2ok (b b2 : Nat) : Bool :=
  if b = 0xE0 then 0xA0 ≤ b2 && b2 ≤ 0xBF
  else if b = 0xED then 0x80 ≤ b2 && b2 ≤ 0x9F
  else isContByte b2

/-- Validity of the first continuation byte of a four-byte sequence
(excludes overlong encodings and code points above U+10FFFF). -/
def cont3ok (b b2 : Nat) : Bool :=
  if b = 0xF0 then 0x90 ≤ b2 && b2 ≤ 0xBF
  else if b = 0xF4 then 0x80 ≤ b2 && b2 ≤ 0x8F
  else isContByte b2

/-- Helper for `utf8DecodeIgnore`, structurally recursive on a fuel
argument so that concrete inputs reduce in the kernel; every step
consumes at least one byte, so fuel equal to the byte count is exact.
On an invalid lead or continuation byte only the lead byte is skipped;
the orphaned continuation bytes are then skipped one by one, which
yields the same characters as CPython's maximal-subpart `ignore`
handler. -/
def utf8DecodeIgnoreAux : Nat → List Nat → List Char
  | 0, _ => []
  | _ + 1, [] => []
  | fuel + 1, b :: bs =>
    if b < 0x80 then Char.ofNat b :: utf8DecodeIgnoreAux fuel bs
    else if 0xC2 ≤ b && b ≤ 0xDF then
      match bs with
      | b2 :: bs2 =>
        if isContByte b2 then
          Char.ofNat ((b - 0xC0) * 64 + (b2 - 0x80)) :: utf8DecodeIgnoreAux fuel bs2
        else utf8DecodeIgnoreAux fuel bs
      | [] => []
    else if 0xE0 ≤ b && b ≤ 0xEF then
      match bs with
      | b2 :: b3 :: bs3 =>
        if cont2ok b b2 && isContByte b3 then
          Char.ofNat ((b - 0xE0) * 4096 + (b2 - 0x80) * 64 + (b3 - 0x80)) ::
            utf8DecodeIgnoreAux fuel bs3
        else utf8DecodeIgnoreAux fuel bs
      | _ => utf8DecodeIgnoreAux fuel bs
    else if 0xF0 ≤ b && b ≤ 0xF4 then
      match bs with
      | b2 :: b3 :: b4 :: bs4 =>
        if cont3ok b b2 && isContByte b3 && isContByte b4 then
          Char.ofNat
              ((b - 0xF0) * 262144 + (b2 - 0x80) * 4096 + (b3 - 0x80) * 64 + (b4 - 0x80)) ::
            utf8DecodeIgnoreAux fuel bs4
        else utf8DecodeIgnoreAux fuel bs
      | _ => utf8DecodeIgnoreAux fuel bs
    else utf8DecodeIgnoreAux fuel bs

/-- Model of `bytes.decode("utf-8", errors="ignore")`: decode UTF-8,
dropping bytes that do not form a valid sequence. -/
def utf8DecodeIgnore (bs : List Nat) : List Char :=
  utf8DecodeIgnoreAux bs.length bs

/-- UTF-8 encoding of one character, as a byte list. -/
def utf8EncodeChar (c : Char) : List Nat :=
  let n := c.toNat
  if n < 0x80 then [n]
  else if n < 0x800 then [0xC0 + n / 64, 0x80 + n % 64]
  else if n < 0x10000 then [0xE0 + n / 4096, 0x80 + n / 64 % 64, 0x80 + n % 64]
  else [0xF0 + n / 262144, 0x80 + n / 4096 % 64, 0x80 + n / 64 % 64, 0x80 + n % 64]

/-- Model of `str.encode("utf-8")` on a character list. -/
def utf8Encode (cs : List Char) : List Nat :=
  (cs.map utf8EncodeChar).flatten

/-- Model of `models.aircraft.MessageField`. -/
structure MessageField where
  name : String
  field_type : String
  unit : Option String
  alt_unit : Option String
  alt_unit_coef : Option PFloat
  description : Option String
  values : Option (List String)
deriving DecidableEq, Repr

/-- Model of `models.aircraft.MessageDefinition`. -/
structure MessageDefinition where
  name : String
  message_id : Int
  fields : List MessageField
  description : Option String
deriving DecidableEq, Repr

/-- Python dict lookup on an association-list model (first match). -/
def dictGet {α : Type} (k : String) : List (String × α) → Option α
  | [] => none
  | (k2, v) :: rest => if k2 = k then some v else dictGet k rest

/-- Python dict assignment on an association-list model: replace the
value in place if the key exists, append otherwise. -/
def dictInsert {α : Type} (k : String) (v : α) :
    List (String × α) → List (String × α)
  | [] => [(k, v)]
  | (k2, v2) :: rest =>
    if k2 = k then (k, v) :: rest else (k2, v2) :: dictInsert k v rest

/-- Model of `models.aircraft.Aircraft`; `message_definitions` is the
dict from message name to definition. -/
structure Aircraft where
  ac_id : Int
  name : String
  airframe : String
  message_definitions : List (String × MessageDefinition)
deriving DecidableEq, Repr

/-- Model of `Aircraft.get_message_definition`. -/
def Aircraft.get_message_definition (a : Aircraft) (message_name : String) :
    Option MessageDefinition :=
  dictGet message_name a.message_definitions

/-- Model of `models.aircraft.AircraftConfig`. -/
structure AircraftConfig where
  aircraft : List Aircraft
deriving DecidableEq, Repr

/-- Model of `AircraftConfig.get_aircraft_by_id`: linear scan for the
first aircraft with the given id. -/
def AircraftConfig.get_aircraft_by_id (cfg : AircraftConfig) (ac_id : Int) :
    Option Aircraft :=
  cfg.aircraft.find? (fun a => a.ac_id == ac_id)

/-- Model of `models.message.Message`. -/
structure Message where
  timestamp : PFloat
  aircraft_id : Int
  message_type : String
  message_id : Int
  raw_data : List Nat
  parsed_fields : List (String × FieldValue)
deriving DecidableEq, Repr

/-- Decimal digit character for a value below ten. -/
def digitChar (n : Nat) : Char :=
  Char.ofNat ('0'.toNat + n)

/-- Digits of a natural number, most significant first, driven by a
fuel argument (any fuel above the number itself is enough). -/
def natDigitsAux : Nat → Nat → List Char
  | 0, _ => []
  | fuel + 1, n =>
    if n < 10 then [digitChar n]
    else natDigitsAux fuel (n / 10) ++ [digitChar (n % 10)]

/-- Model of Python `str(i)` for a natural number (the synthetic
field-name indices are list positions, so never negative). -/
def pyStr (n : Nat) : String :=
  String.mk (natDigitsAux (n + 1) n)

/-- The token-conversion pipeline of
`SimpleDataParser._parse_message_data`: split the data portion on
commas when one is present (stripping each piece) and on whitespace
otherwise, and convert every piece. -/
def SimpleDataParser.converted_values (data_part : List Char) : List PyVal :=
  (if ',' ∈ data_part then (splitOnChar ',' data_part).map pyStrip
   else pySplitWs data_part).map SimpleDataParser.convert_value

/-- The field-name lookup loop inside
`SimpleDataParser._parse_message_data`: scan every aircraft in
declaration order and take the declared field names of the first one
whose message map resolves the message name, regardless of the line's
aircraft id. -/
def firstFieldNames (message_name : String) : List Aircraft → List String
  | [] => []
  | a :: rest =>
    match a.get_message_definition message_name with
    | some md => md.fields.map (fun f => f.name)
    | none => firstFieldNames message_name rest

/-- Model of `SimpleDataParser._parse_message_data`
(src/backend/parsers/simple_data_parser.py, lines 108-146). -/
def SimpleDataParser.parse_message_data (aircraft_config : Option AircraftConfig)
    (data_part : List Char) (message_name : String) :
    List (String × FieldValue) :=
  let field_names : List String :=
    match aircraft_config with
    | some cfg => firstFieldNames message_name cfg.aircraft
    | none => []
  let converted_values := SimpleDataParser.converted_values data_part
  let base : List (String × FieldValue) :=
    if field_names.isEmpty then
      (converted_values.enum).foldl
        (fun d p => dictInsert ("field_" ++ pyStr p.1) (FieldValue.scalar p.2) d) []
    else
      (field_names.zip converted_values).foldl
        (fun d p => dictInsert p.1 (FieldValue.scalar p.2) d) []
  dictInsert "_raw_data" (FieldValue.scalar (PyVal.pstr (String.mk data_part)))
    (dictInsert "_raw_values" (FieldValue.vlist converted_values) base)

/-- Python `" ".join(parts)` on character lists. -/
def joinSpace : List (List Char) → List Char
  | [] => []
  | [p] => p
  | p :: rest => p ++ ' ' :: joinSpace rest

/-- Model of `SimpleDataParser._parse_line`
(src/backend/parsers/simple_data_parser.py, lines 61-106): `none`
models every path on which the Python returns `None` (fewer than three
tokens, or a `ValueError` from the timestamp or aircraft-id parse). -/
def SimpleDataParser.parse_line (aircraft_config : Option AircraftConfig)
    (line : List Char) : Option Message :=
  match pySplitWs line with
  | p0 :: p1 :: p2 :: prest =>
    match parsePyFloat p0 with
    | none => none
    | some timestamp =>
      match parsePyInt p1 with
      | none => none
      | some aircraft_id =>
        let message_name := String.mk p2
        let parsed_fields :=
          if prest.isEmpty then []
          else
            SimpleDataParser.parse_message_data aircraft_config
              (joinSpace prest) message_name
        let message_id : Int :=
          match aircraft_config with
          | some cfg =>
            match cfg.get_aircraft_by_id aircraft_id with
            | some aircraft =>
              match aircraft.get_message_definition message_name with
              | some md => md.message_id
              | none => 0
            | none => 0
          | none => 0
        some ⟨timestamp, aircraft_id, message_name, message_id,
              utf8Encode line, parsed_fields⟩
  | _ => none

/-- The per-line body of the loop in `SimpleDataParser.parse_data`
(src/backend/parsers/simple_data_parser.py, lines 46-57): strip the
line, skip it when it is blank or its first character is `#`, and
otherwise hand it to `_parse_line`; `none` means the line contributes
no record. -/
def SimpleDataParser.process_line (aircraft_config : Option AircraftConfig)
    (rawLine : List Char) : Option Message :=
  let line := pyStrip rawLine
  if line = [] ∨ line.head? = some '#' then none
  else SimpleDataParser.parse_line aircraft_config line

/-- Model of `SimpleDataParser.parse_data`
(src/backend/parsers/simple_data_parser.py, lines 19-59).  The
decoder's one piece of instance state, `self.aircraft_config`, is
passed and returned explicitly; the method first overwrites it with
the supplied config, then decodes the bytes as UTF-8 with invalid
bytes ignored and processes the text line by line (the `latin-1`
fallback in the source is unreachable because `errors="ignore"` never
raises). -/
def SimpleDataParser.parse_data (st : Option AircraftConfig)
    (data_content : List Nat) (aircraft_config : AircraftConfig) :
    Option AircraftConfig × List Message :=
  let st2 : Option AircraftConfig := some aircraft_config
  let text := utf8DecodeIgnore data_content
  let msgs := (splitlinesCL text).filterMap (SimpleDataParser.process_line st2)
  (st2, msgs)

/-- Decoding with a fresh `SimpleDataParser` instance (whose
`aircraft_config` starts as `None`), keeping only the message list. -/
def decodeText (data_content : List Nat) (aircraft_config : AircraftConfig) :
    List Message :=
  (SimpleDataParser.parse_data none data_content aircraft_config).2

/-- Model of a parsed XML element as produced by
`xml.etree.ElementTree.fromstring`: tag, attribute dict, text content
and child elements.  `LogParser.parse_log` is modelled from this tree
onward; the tolerant pre-pass `_clean_xml_content` and the XML parse
itself (whose failure is the `Malformed` error) happen before the tree
exists and are outside the model. -/
inductive XmlElement where
  | mk (tag : String) (attrs : List (String × String))
      (text : Option String) (children : List XmlElement)

/-- Tag name of an element. -/
def XmlElement.tag : XmlElement → String
  | .mk t _ _ _ => t

/-- Attribute dict of an element. -/
def XmlElement.attrs : XmlElement → List (String × String)
  | .mk _ a _ _ => a

/-- Text content of an element (`Element.text`). -/
def XmlElement.text : XmlElement → Option String
  | .mk _ _ tx _ => tx

/-- Child elements of an element. -/
def XmlElement.children : XmlElement → List XmlElement
  | .mk _ _ _ ch => ch

/-- Model of `Element.get(key, default=None)`. -/
def XmlElement.get (e : XmlElement) (key : String) : Option String :=
  dictGet key e.attrs

mutual
/-- Model of `root.findall(".//tag")`: every descendant element with
the given tag, in document order, the root excluded. -/
def findAllDeep (tag : String) : XmlElement → List XmlElement
  | .mk _ _ _ ch => findAllDeepList tag ch
/-- Descendant search over a list of sibling elements: each matching
sibling, then its own matching descendants, then the later siblings. -/
def findAllDeepList (tag : String) : List XmlElement → List XmlElement
  | [] => []
  | c :: rest =>
    (if c.tag = tag then [c] else []) ++ findAllDeep tag c ++
      findAllDeepList tag rest
end

/-- Model of `Element.findall(tag)` with a plain tag: matching direct
children in order. -/
def XmlElement.findall (e : XmlElement) (tag : String) : List XmlElement :=
  e.children.filter (fun c => c.tag == tag)

/-- Model of `Element.find(tag)`: the first matching direct child. -/
def XmlElement.findChild (e : XmlElement) (tag : String) : Option XmlElement :=
  (e.findall tag).head?

/-- Model of `LogParser._parse_field`
(src/backend/parsers/log_parser.py, lines 132-166).  The source's
`if alt_unit_coef:` keeps an empty-string `ALT_UNIT_COEF` attribute
verbatim instead of converting it (a type slip never exercised); the
model collapses that case to `none`. -/
def LogParser.parse_field (field_elem : XmlElement) : Option MessageField :=
  let name := (field_elem.get "NAME").getD ""
  let field_type := (field_elem.get "TYPE").getD ""
  let unit := field_elem.get "UNIT"
  let alt_unit := field_elem.get "ALT_UNIT"
  let description := field_elem.text
  let alt_unit_coef : Option PFloat :=
    match field_elem.get "ALT_UNIT_COEF" with
    | none => none
    | some s => if s.isEmpty then none else parsePyFloat s.data
  let values : Option (List String) :=
    match field_elem.get "VALUES" with
    | none => none
    | some s =>
      if s.isEmpty then none
      else some ((splitOnChar '|' s.data).map (fun v => String.mk (pyStrip v)))
  some ⟨name, field_type, unit, alt_unit, alt_unit_coef, description, values⟩

/-- Model of `LogParser._parse_message_definition`
(src/backend/parsers/log_parser.py, lines 106-130): `none` models the
`ValueError` from an unparseable `ID` attribute, which the source
catches by skipping the message. -/
def LogParser.parse_message_definition (message_elem : XmlElement) :
    Option MessageDefinition :=
  let name := (message_elem.get "NAME").getD ""
  let idParsed : Option Int :=
    match message_elem.get "ID" with
    | none => some 0
    | some s => parsePyInt s.data
  match idParsed with
  | none => none
  | some message_id =>
    let description := (message_elem.findChild "description").bind
      (fun d => d.text)
    let fields := (message_elem.findall "field").filterMap LogParser.parse_field
    some ⟨name, message_id, fields, description⟩

/-- Model of `LogParser._parse_message_definitions`
(src/backend/parsers/log_parser.py, lines 92-104), building the
message-class dict.  An unparseable `ID` attribute on a `msg_class`
element is caught only by the outer handler of `parse_log`, which
re-raises; this is the `Except.error` case. -/
def LogParser.msg_class_step
    (classes : List (String × List (String × MessageDefinition)))
    (msg_class : XmlElement) :
    Except String (List (String × List (String × MessageDefinition))) :=
  let class_name := (msg_class.get "NAME").getD "unknown"
  let idParsed : Option Int :=
    match msg_class.get "ID" with
    | none => some 0
    | some s => parsePyInt s.data
  match idParsed with
  | none => Except.error "Error parsing log file: invalid msg_class ID"
  | some _ =>
    let messages := (msg_class.findall "message").foldl
      (fun d m =>
        match LogParser.parse_message_definition m with
        | some md => dictInsert md.name md d
        | none => d) []
    Except.ok (dictInsert class_name messages classes)

/-- The iteration of `LogParser._parse_message_definitions` over the
`msg_class` elements, threading the class dict. -/
def LogParser.parse_message_definitions (root : XmlElement) :
    Except String (List (String × List (String × MessageDefinition))) :=
  (findAllDeep "msg_class" root).foldlM LogParser.msg_class_step []

/-- Model of `LogParser._parse_aircraft`
(src/backend/parsers/log_parser.py, lines 75-90): an absent `ac_id`
attribute defaults to `int(0)` and the aircraft is kept; a present but
unparseable `ac_id` raises `ValueError`, which the source catches by
returning `None` (the element is skipped with a warning). -/
def LogParser.parse_aircraft (aircraft_elem : XmlElement) : Option Aircraft :=
  let name := (aircraft_elem.get "name").getD "Unknown"
  let airframe := (aircraft_elem.get "airframe").getD ""
  match aircraft_elem.get "ac_id" with
  | none => some ⟨0, name, airframe, []⟩
  | some s => (parsePyInt s.data).map (fun n => ⟨n, name, airframe, []⟩)

/-- Model of `LogParser.parse_log`
(src/backend/parsers/log_parser.py, lines 19-56) from the parsed XML
tree onward: collect the aircraft elements, build the message-class
dict, and give every kept aircraft the message map of the class named
`"telemetry"` (the empty map when no such class exists).  No failure
path inspects the telemetry class; the only error the model can
produce is the re-raised `ValueError` from `_parse_message_definitions`. -/
def LogParser.parse_log (root : XmlElement) : Except String AircraftConfig :=
  let aircraft_list := (findAllDeep "aircraft" root).filterMap
    LogParser.parse_aircraft
  match LogParser.parse_message_definitions root with
  | Except.error e => Except.error e
  | Except.ok classes =>
    let telem := (dictGet "telemetry" classes).getD []
    Except.ok ⟨aircraft_list.map
      (fun a => ⟨a.ac_id, a.name, a.airframe, telem⟩)⟩

/-- Little-endian value of a byte list. -/
def leVal : List Nat → Nat
  | [] => 0
  | b :: rest => b + 256 * leVal rest

/-- Reinterpret an unsigned `w`-bit value as two's-complement signed. -/
def toSigned (w v : Nat) : Int :=
  if v < 2 ^ (w - 1) then (v : Int) else (v : Int) - 2 ^ w

/-- Value of an IEEE 754 single-precision bit pattern, modelling
`struct.unpack("<f", ...)`: sign, 8 exponent bits, 23 mantissa bits. -/
def f32OfBits (bits : Nat) : PFloat :=
  let sgnNeg := bits / 2 ^ 31 % 2 = 1
  let e := bits / 2 ^ 23 % 2 ^ 8
  let m := bits % 2 ^ 23
  let signed : Nat → Int := fun n => if sgnNeg then -(n : Int) else (n : Int)
  if e = 255 then (if m = 0 then PFloat.inf sgnNeg else PFloat.nan)
  else if e = 0 then PFloat.finite (mkRat (signed m) (2 ^ 149))
  else if 150 ≤ e then
    PFloat.finite (mkRat (signed ((2 ^ 23 + m) * 2 ^ (e - 150))) 1)
  else PFloat.finite (mkRat (signed (2 ^ 23 + m)) (2 ^ (150 - e)))

/-- Value of an IEEE 754 double-precision bit pattern, modelling
`struct.unpack("<d", ...)`: sign, 11 exponent bits, 52 mantissa bits. -/
def f64OfBits (bits : Nat) : PFloat :=
  let sgnNeg := bits / 2 ^ 63 % 2 = 1
  let e := bits / 2 ^ 52 % 2 ^ 11
  let m := bits % 2 ^ 52
  let signed : Nat → Int := fun n => if sgnNeg then -(n : Int) else (n : Int)
  if e = 2047 then (if m = 0 then PFloat.inf sgnNeg else PFloat.nan)
  else if e = 0 then PFloat.finite (mkRat (signed m) (2 ^ 1074))
  else if 1075 ≤ e then
    PFloat.finite (mkRat (signed ((2 ^ 52 + m) * 2 ^ (e - 1075))) 1)
  else PFloat.finite (mkRat (signed (2 ^ 52 + m)) (2 ^ (1075 - e)))

/-- Model of the Python slice `xs[o:]` for a possibly negative index:
a nonnegative index drops that many elements (clamped), a negative
index keeps the last `|o|` elements (clamped). -/
def pySliceFrom {α : Type} (o : Int) (xs : List α) : List α :=
  if 0 ≤ o then xs.drop o.toNat
  else xs.drop (xs.length - min o.natAbs xs.length)

/-- Model of the Python slice `xs[:o]` for a possibly negative index:
a nonnegative index takes that many elements (clamped), a negative
index drops the last `|o|` elements (clamped). -/
def pySliceTo {α : Type} (o : Int) (xs : List α) : List α :=
  if 0 ≤ o then xs.take o.toNat
  else xs.take (xs.length - min o.natAbs xs.length)

/-- Model of `bytes.decode("ascii", errors="ignore")`: bytes at or
above 128 are dropped, the rest map to their characters. -/
def asciiIgnore (bs : List Nat) : List Char :=
  (bs.filter (fun b => b < 128)).map Char.ofNat

/-- Python `str.rstrip("\0")` on a character list. -/
def rstripNull (cs : List Char) : List Char :=
  (cs.reverse.dropWhile (fun c => c = '\x00')).reverse

/-- Python `str.endswith(suffix)` on character lists, written with
structural list operations so that concrete values reduce in the
kernel. -/
def endsWithCL (l suffix : List Char) : Bool :=
  l.reverse.take suffix.length == suffix.reverse

/-- Python `str.startswith(piece)` on character lists. -/
def startsWithCL (l piece : List Char) : Bool :=
  l.take piece.length == piece

/-- Model of `DataParser._parse_string`
(src/backend/parsers/data_parser.py, lines 117-131): read up to the
first null byte, falling back to the first space, returning the
decoded text and the bytes consumed including the terminator; with no
terminator at all the result is the empty string and zero consumed. -/
def DataParser.parse_string (data : List Nat) : String × Nat :=
  match data.findIdx? (fun b => b == 0) with
  | some p => (String.mk (asciiIgnore (data.take p)), p + 1)
  | none =>
    match data.findIdx? (fun b => b == 32) with
    | some p => (String.mk (asciiIgnore (data.take p)), p + 1)
    | none => ("", 0)

/-- Model of `DataParser._parse_array`
(src/backend/parsers/data_parser.py, lines 225-264): decode the whole
remainder as ASCII with invalid bytes ignored, take its first
whitespace token, split that token on commas when present, convert the
pieces by the base type's scalar rule skipping pieces that fail, and
report the token's encoded length as the consumed byte count.  With no
token at all the indexing raises and the handler returns an empty list
and zero consumed. -/
def DataParser.parse_array (data : List Nat) (base_type : String) :
    List PyVal × Nat :=
  let text := asciiIgnore data
  match pySplitWs text with
  | [] => ([], 0)
  | tok :: _ =>
    let parts := if ',' ∈ tok then splitOnChar ',' tok else pySplitWs tok
    let values := parts.filterMap (fun p =>
      let p2 := pyStrip p
      if p2.isEmpty then none
      else if base_type = "float" || base_type = "float32" ||
          base_type = "double" then
        (parsePyFloat p2).map PyVal.pfloat
      else if base_type = "int" || base_type = "int32" ||
          base_type = "int16" || base_type = "int8" then
        (parsePyInt p2).map PyVal.pint
      else if base_type = "uint" || base_type = "uint32" ||
          base_type = "uint16" || base_type = "uint8" then
        (parsePyInt p2).map PyVal.pint
      else some (PyVal.pstr (String.mk p2)))
    (values, tok.length)

/-- Model of `DataParser._parse_field_value`
(src/backend/parsers/data_parser.py, lines 152-223).  The consumed
length is an integer because a `char[N]` type tag with negative `N`
returns the declared length verbatim: `int(field_type[5:-1])` accepts
it, `len(data) < length` is false, `data[:length]` is a Python
negative slice, and `(value, length)` is returned with `length < 0`.
`none` models an exception escaping to the caller's per-field handler:
the only such path is an unparseable length in a `char[N]` type tag. -/
def DataParser.parse_field_value (data : List Nat) (field : MessageField) :
    Option (FieldValue × Int) :=
  if data.isEmpty then some (FieldValue.scalar PyVal.pnone, 0)
  else
    let ftl := toLowerCL field.field_type.data
    let ft := String.mk ftl
    if endsWithCL ftl "[]".data then
      let r := DataParser.parse_array data (String.mk (ftl.dropLast.dropLast))
      some (FieldValue.vlist r.1, (r.2 : Int))
    else if ft = "float" ∨ ft = "float32" then
      if data.length < 4 then some (FieldValue.scalar PyVal.pnone, 0)
      else some (FieldValue.scalar (PyVal.pfloat (f32OfBits (leVal (data.take 4)))), 4)
    else if ft = "double" ∨ ft = "float64" then
      if data.length < 8 then some (FieldValue.scalar PyVal.pnone, 0)
      else some (FieldValue.scalar (PyVal.pfloat (f64OfBits (leVal (data.take 8)))), 8)
    else if ft = "int32" ∨ ft = "int" then
      if data.length < 4 then some (FieldValue.scalar PyVal.pnone, 0)
      else some (FieldValue.scalar (PyVal.pint (toSigned 32 (leVal (data.take 4)))), 4)
    else if ft = "uint32" ∨ ft = "uint" then
      if data.length < 4 then some (FieldValue.scalar PyVal.pnone, 0)
      else some (FieldValue.scalar (PyVal.pint (leVal (data.take 4))), 4)
    else if ft = "int16" ∨ ft = "short" then
      if data.length < 2 then some (FieldValue.scalar PyVal.pnone, 0)
      else some (FieldValue.scalar (PyVal.pint (toSigned 16 (leVal (data.take 2)))), 2)
    else if ft = "uint16" ∨ ft = "ushort" then
      if data.length < 2 then some (FieldValue.scalar PyVal.pnone, 0)
      else some (FieldValue.scalar (PyVal.pint (leVal (data.take 2))), 2)
    else if ft = "int8" ∨ ft = "char" then
      if data.length < 1 then some (FieldValue.scalar PyVal.pnone, 0)
      else some (FieldValue.scalar (PyVal.pint (toSigned 8 (leVal (data.take 1)))), 1)
    else if ft = "uint8" ∨ ft = "uchar" then
      if data.length < 1 then some (FieldValue.scalar PyVal.pnone, 0)
      else some (FieldValue.scalar (PyVal.pint (leVal (data.take 1))), 1)
    else if startsWithCL ftl "char[".data then
      match parsePyInt ((ftl.drop 5).dropLast) with
      | none => none
      | some len =>
        if (data.length : Int) < len then
          some (FieldValue.scalar (PyVal.pstr ""), (data.length : Int))
        else
          some (FieldValue.scalar (PyVal.pstr
            (String.mk (rstripNull (asciiIgnore (pySliceTo len data))))), len)
    else some (FieldValue.scalar PyVal.pnone, 0)

/-- Model of `DataParser._parse_message_fields`
(src/backend/parsers/data_parser.py, lines 133-150): decode each field
in declared order, skipping a field whose decode raises without
advancing the offset, and return the field dict with the total bytes
consumed.  The running offset is an integer — a negative `char[N]`
length makes it negative, and `data[offset:]` then takes a Python
negative slice. -/
def DataParser.parse_message_fields (data : List Nat)
    (fields : List MessageField) : List (String × FieldValue) × Int :=
  fields.foldl (fun acc field =>
    match DataParser.parse_field_value (pySliceFrom acc.2 data) field with
    | some (v, n) => (dictInsert field.name v acc.1, acc.2 + n)
    | none => acc) ([], 0)

/-- Model of `DataParser._parse_single_message`
(src/backend/parsers/data_parser.py, lines 55-115): `none` models every
path on which the Python returns `(None, _)` — the caller ignores the
accompanying count and advances by one byte.  A successful record
consumes the 4-byte timestamp, the 4-byte aircraft id, the terminated
message name, and the field bytes; the total is an integer and can be
zero or negative when a field declares a negative `char[N]` length. -/
def DataParser.parse_single_message (aircraft_config : AircraftConfig)
    (data : List Nat) : Option (Message × Int) :=
  if data.length < 8 then none
  else
    let timestamp := f32OfBits (leVal (data.take 4))
    let aircraft_id : Int := ((leVal ((data.drop 4).take 4) : Nat) : Int)
    match aircraft_config.get_aircraft_by_id aircraft_id with
    | none => none
    | some aircraft =>
      let ns := DataParser.parse_string (data.drop 8)
      if ns.1 = "" then none
      else
        match aircraft.get_message_definition ns.1 with
        | none => none
        | some message_def =>
          let pf := DataParser.parse_message_fields (data.drop (8 + ns.2))
            message_def.fields
          some (⟨timestamp, aircraft_id, ns.1, message_def.message_id,
                 pySliceTo (((8 + ns.2 : Nat) : Int) + pf.2) data, pf.1⟩,
                ((8 + ns.2 : Nat) : Int) + pf.2)

/-- The `while offset < len(data_content)` loop of
`DataParser.parse_data` (src/backend/parsers/data_parser.py,
lines 38-53), written with a fuel argument counting iterations of the
Python loop: a successful parse emits the record and advances the
offset by the consumed length (an integer that can be zero or
negative), any failure advances it by exactly one byte.  The Python
loop is the limit of this function as fuel grows; it need not
terminate — a record consuming zero bytes repeats forever — and fuel
equal to the stream length is exact precisely when every successful
parse consumes at least one byte (the guarded termination theorem). -/
def DataParser.parse_data_loop (aircraft_config : AircraftConfig)
    (data_content : List Nat) : Nat → Int → List Message
  | 0, _ => []
  | fuel + 1, offset =>
    if offset < (data_content.length : Int) then
      match DataParser.parse_single_message aircraft_config
          (pySliceFrom offset data_content) with
      | some (m, c) =>
        m :: DataParser.parse_data_loop aircraft_config data_content fuel (offset + c)
      | none =>
        DataParser.parse_data_loop aircraft_config data_content fuel (offset + 1)
    else []

/-- Model of `DataParser.parse_data`
(src/backend/parsers/data_parser.py, lines 21-53), truncated at one
loop iteration per input byte; this equals the Python function
whenever the latter terminates from offset 0 within that many
iterations, in particular for every catalog whose declared field
lengths are nonnegative (see the termination theorem). -/
def DataParser.parse_data (data_content : List Nat)
    (aircraft_config : AircraftConfig) : List Message :=
  DataParser.parse_data_loop aircraft_config data_content data_content.length 0

/-- Whether a field's type tag cannot yield a negative consumed
length: every tag except a `char[N]` with parseable negative `N`. -/
def fieldLengthOk (f : MessageField) : Bool :=
  let ftl := toLowerCL f.field_type.data
  if endsWithCL ftl "[]".data then true
  else if startsWithCL ftl "char[".data then
    match parsePyInt ((ftl.drop 5).dropLast) with
    | none => true
    | some n => 0 ≤ n
  else true

/-- Whether every field of every message definition of every aircraft
in the catalog satisfies `fieldLengthOk` — the decidable guard under
which the binary decode loop terminates. -/
def AircraftConfig.lengthsOk (cfg : AircraftConfig) : Bool :=
  cfg.aircraft.all (fun a => a.message_definitions.all
    (fun p => p.2.fields.all fieldLengthOk))

/-- The two hash values `ParserVersionManager` compares: the digest of
the current parser and model sources (`get_current_parser_hash`, a
pure function of files that do not change during one call) and the
digest stored in `parser_version.json`
(`load_stored_version().get("version_hash", "")`, the empty string
when the file is missing or unreadable). -/
structure VersionEnv where
  currentHash : String
  storedHash : String
deriving DecidableEq, Repr

/-- What `get_sessions_to_reprocess` finds in one entry of the output
directory: not a directory, a directory without `summary.json`, or a
directory whose `summary.json` read yields a stored hash
(`summary.get("parser_version", {}).get("version_hash", "")`) or
raises (`dirSummary none`). -/
inductive SessionEntry where
  | notDir
  | dirNoSummary
  | dirSummary (readHash : Option String)
deriving DecidableEq, Repr

/-- Model of `ParserVersionManager.has_parser_changed`
(src/backend/parser_version.py, lines 78-84). -/
def ParserVersionManager.has_parser_changed (env : VersionEnv) : Bool :=
  env.currentHash != env.storedHash

/-- Model of `ParserVersionManager.get_sessions_to_reprocess`
(src/backend/parser_version.py, lines 86-119): return the empty list
before touching any session when the parser has not changed, or when
the output directory does not exist; otherwise collect the name of
every session directory whose summary read fails or whose stored hash
differs from the current one. -/
def ParserVersionManager.get_sessions_to_reprocess (env : VersionEnv)
    (output_exists : Bool) (entries : List (String × SessionEntry)) :
    List String :=
  if ¬ ParserVersionManager.has_parser_changed env then []
  else if ¬ output_exists then []
  else entries.filterMap (fun e =>
    match e.2 with
    | SessionEntry.notDir => none
    | SessionEntry.dirNoSummary => none
    | SessionEntry.dirSummary none => some e.1
    | SessionEntry.dirSummary (some h) =>
      if h ≠ env.currentHash then some e.1 else none)

/-- Whether a `msg_class` element's `ID` attribute will not make the
`int()` call in `_parse_message_definitions` raise: absent (the Python
default `0` is already an int) or parseable. -/
def msgClassIdOk (mc : XmlElement) : Bool :=
  match mc.get "ID" with
  | none => true
  | some s => (parsePyInt s.data).isSome

/-- Field list of the spec's example GPS message:
`lat:float32, lon:float32, alt:int16`. -/
def gpsFields : List MessageField :=
  [⟨"lat", "float32", none, none, none, none, none⟩,
   ⟨"lon", "float32", none, none, none, none, none⟩,
   ⟨"alt", "int16", none, none, none, none, none⟩]

/-- The example GPS message definition (message id 8). -/
def gpsDef : MessageDefinition := ⟨"GPS", 8, gpsFields, none⟩

/-- The example catalog: one aircraft with id 3 declaring `GPS`. -/
def gpsConfig : AircraftConfig :=
  ⟨[⟨3, "ac3", "frame", [("GPS", gpsDef)]⟩]⟩

/-- The record the example line `"12.5 3 GPS 48.1,11.5,350"` decodes
to under `gpsConfig`. -/
def gpsMsg : Message :=
  ⟨PFloat.finite (mkRat 25 2), 3, "GPS", 8,
   utf8Encode "12.5 3 GPS 48.1,11.5,350".data,
   [("lat", FieldValue.scalar (PyVal.pfloat (PFloat.finite (mkRat 481 10)))),
    ("lon", FieldValue.scalar (PyVal.pfloat (PFloat.finite (mkRat 23 2)))),
    ("alt", FieldValue.scalar (PyVal.pint 350)),
    ("_raw_values", FieldValue.vlist
      [PyVal.pfloat (PFloat.finite (mkRat 481 10)),
       PyVal.pfloat (PFloat.finite (mkRat 23 2)), PyVal.pint 350]),
    ("_raw_data", FieldValue.scalar (PyVal.pstr "48.1,11.5,350"))]⟩

/-- A schema tree with one aircraft element and no message class at
all (in particular no `telemetry` class). -/
def c2Root : XmlElement :=
  .mk "configuration" [] none
    [.mk "aircraft" [("ac_id", "3"), ("name", "X"), ("airframe", "af")]
      none []]

/-- A schema tree with one aircraft element whose `ac_id` attribute is
present but unparseable, and one aircraft element with no `ac_id`
attribute at all. -/
def c3Root : XmlElement :=
  .mk "configuration" [] none
    [.mk "aircraft" [("ac_id", "abc"), ("name", "Y")] none [],
     .mk "aircraft" [("name", "Z")] none []]

/-- An aircraft element whose `ac_id` attribute is present but not an
integer. -/
def c3BadElem : XmlElement :=
  .mk "aircraft" [("ac_id", "abc"), ("name", "Y")] none []

/-- A catalog for the binary-decoder examples: aircraft 3 with a
field-less message `M` (id 5). -/
def binCfg : AircraftConfig := ⟨[⟨3, "a", "f", [("M", ⟨"M", 5, [], none⟩)]⟩]⟩

/-- A well-formed ten-byte binary record for `binCfg`: zero timestamp,
aircraft id 3, null-terminated name `M`, no field bytes. -/
def binData : List Nat := [0, 0, 0, 0, 3, 0, 0, 0, 77, 0]

/-- The record `binData` parses to. -/
def binMsg : Message :=
  ⟨PFloat.finite 0, 3, "M", 5, [0, 0, 0, 0, 3, 0, 0, 0, 77, 0], []⟩

/-- A catalog whose message `M` declares one field with the negative
declared length type tag `char[-10]`. -/
def badCfg : AircraftConfig :=
  ⟨[⟨3, "a", "f",
    [("M", ⟨"M", 5, [⟨"s", "char[-10]", none, none, none, none, none⟩],
      none⟩)]⟩]⟩

/-- An eleven-byte stream holding one valid record header for `badCfg`
(zero timestamp, aircraft id 3, name `M`) followed by one data byte. -/
def badData : List Nat := [0, 0, 0, 0, 3, 0, 0, 0, 77, 0, 65]

/-- The record `badData` parses to under `badCfg`: the `char[-10]`
field consumes minus ten bytes, so the whole record consumes
`8 + 2 - 10 = 0` bytes and the raw span is empty. -/
def badMsg : Message :=
  ⟨PFloat.finite 0, 3, "M", 5, [],
   [("s", FieldValue.scalar (PyVal.pstr ""))]⟩
lemma dictGet_insert_self {α : Type} (k : String) (v : α) (d : List (String × α)) :
    dictGet k (dictInsert k v d) = some v := by
  induction d with
  | nil => simp [dictInsert, dictGet]
  | cons p rest ih =>
    obtain ⟨k2, v2⟩ := p
    by_cases h : k2 = k
    · simp [dictInsert, dictGet, h]
    · simp [dictInsert, dictGet, h, ih]

lemma dictGet_insert_ne {α : Type} (k k2 : String) (hne : k2 ≠ k) (v : α)
    (d : List (String × α)) :
    dictGet k (dictInsert k2 v d) = dictGet k d := by
  induction d with
  | nil => simp [dictInsert, dictGet, hne]
  | cons p rest ih =>
    obtain ⟨k3, v3⟩ := p
    by_cases h : k3 = k2
    · subst h
      simp [dictInsert, dictGet, hne]
    · by_cases h2 : k3 = k
      · simp [dictInsert, dictGet, h, h2, Ne.symm hne]
      · simp [dictInsert, dictGet, h, h2, Ne.symm hne, ih]

lemma dictInsert_fresh {α : Type} (k : String) (v : α) (d : List (String × α))
    (h : dictGet k d = none) : dictInsert k v d = d ++ [(k, v)] := by
  induction d with
  | nil => simp [dictInsert]
  | cons p rest ih =>
    obtain ⟨k2, v2⟩ := p
    by_cases h2 : k2 = k
    · simp [dictGet, h2] at h
    · simp [dictGet, h2] at h
      simp [dictInsert, h2, ih h]

lemma dictGet_append_right {α : Type} (k : String) {d1 : List (String × α)}
    (h : dictGet k d1 = none) (d2 : List (String × α)) :
    dictGet k (d1 ++ d2) = dictGet k d2 := by
  induction d1 with
  | nil => simp
  | cons p rest ih =>
    obtain ⟨k2, v2⟩ := p
    by_cases h2 : k2 = k
    · simp [dictGet, h2] at h
    · simp [dictGet, h2] at h ⊢
      exact ih h

lemma digitsVal_append_single (ds : List Char) (c : Char) :
    digitsVal (ds ++ [c]) = 10 * digitsVal ds + (c.toNat - '0'.toNat) := by
  simp [digitsVal, List.foldl_append]

lemma natDigitsAux_spec : ∀ (fuel n : Nat), n < fuel →
    natDigitsAux fuel n ≠ [] ∧ digitsVal (natDigitsAux fuel n) = n := by
  intro fuel
  induction fuel with
  | zero => intro n h; omega
  | succ fuel ih =>
    intro n h
    by_cases h10 : n < 10
    · refine ⟨by simp [natDigitsAux, h10], ?_⟩
      have : digitsVal [digitChar n] = (digitChar n).toNat - '0'.toNat := by
        simp [digitsVal]
      simp only [natDigitsAux, if_pos h10, this]
      interval_cases n <;> decide
    · have hdiv : n / 10 < fuel := by
        have := Nat.div_lt_self (by omega : 0 < n) (by omega : 1 < 10)
        omega
      obtain ⟨hne, hval⟩ := ih (n / 10) hdiv
      refine ⟨by simp [natDigitsAux, h10], ?_⟩
      rw [natDigitsAux, if_neg h10, digitsVal_append_single, hval]
      have hm : n % 10 < 10 := Nat.mod_lt n (by omega)
      have : (digitChar (n % 10)).toNat - '0'.toNat = n % 10 := by
        set r := n % 10 with hr
        interval_cases r <;> decide
      rw [this]
      omega

lemma pyStr_inj {m n : Nat} (h : pyStr m = pyStr n) : m = n := by
  have hd : (pyStr m).data = (pyStr n).data := congrArg String.data h
  have hm := (natDigitsAux_spec (m + 1) m (by omega)).2
  have hn := (natDigitsAux_spec (n + 1) n (by omega)).2
  simp only [pyStr] at hd
  rw [← hm, ← hn, hd]

lemma field_key_inj {i j : Nat} (h : "field_" ++ pyStr i = "field_" ++ pyStr j) :
    i = j := by
  have hd := congrArg String.data h
  simp only [String.data_append] at hd
  have := List.append_cancel_left hd
  exact pyStr_inj (congrArg String.mk this)

lemma field_key_head (i : Nat) : ("field_" ++ pyStr i).data.head? = some 'f' := rfl

lemma raw_values_ne_field_key (i : Nat) : "field_" ++ pyStr i ≠ "_raw_values" := by
  intro h
  have := congrArg (fun s => s.data.head?) h
  simp only [field_key_head] at this
  exact absurd this (by decide)

lemma raw_data_ne_field_key (i : Nat) : "field_" ++ pyStr i ≠ "_raw_data" := by
  intro h
  have := congrArg (fun s => s.data.head?) h
  simp only [field_key_head] at this
  exact absurd this (by decide)

lemma dictGet_synth_keys_none (k : String)
    (hk : ∀ i : Nat, "field_" ++ pyStr i ≠ k) (ps : List (Nat × PyVal)) :
    dictGet k (ps.map (fun p => ("field_" ++ pyStr p.1, FieldValue.scalar p.2))) =
      none := by
  induction ps with
  | nil => rfl
  | cons p rest ih => simp [dictGet, hk p.1, ih]

lemma synth_fold_general :
    ∀ (l : List PyVal) (i : Nat) (d : List (String × FieldValue)),
      (∀ j : Nat, i ≤ j → dictGet ("field_" ++ pyStr j) d = none) →
      (List.enumFrom i l).foldl
          (fun d p => dictInsert ("field_" ++ pyStr p.1) (FieldValue.scalar p.2) d) d =
        d ++ (List.enumFrom i l).map
          (fun p => ("field_" ++ pyStr p.1, FieldValue.scalar p.2)) := by
  intro l
  induction l with
  | nil => intro i d _; simp [List.enumFrom]
  | cons v rest ih =>
    intro i d hfresh
    have hstep : dictInsert ("field_" ++ pyStr i) (FieldValue.scalar v) d =
        d ++ [("field_" ++ pyStr i, FieldValue.scalar v)] :=
      dictInsert_fresh _ _ _ (hfresh i (le_refl i))
    have hfresh2 : ∀ j : Nat, i + 1 ≤ j →
        dictGet ("field_" ++ pyStr j)
          (d ++ [("field_" ++ pyStr i, FieldValue.scalar v)]) = none := by
      intro j hj
      rw [dictGet_append_right _ (hfresh j (by omega))]
      have hne : ("field_" ++ pyStr i) ≠ ("field_" ++ pyStr j) := by
        intro h; have := field_key_inj h; omega
      simp [dictGet, hne]
    simp only [List.enumFrom, List.foldl_cons, List.map_cons]
    rw [hstep, ih (i + 1) _ hfresh2, List.append_assoc]
    rfl

lemma firstFieldNames_eq_nil {message_name : String} :
    ∀ {as : List Aircraft},
      (∀ a ∈ as, a.get_message_definition message_name = none) →
      firstFieldNames message_name as = [] := by
  intro as
  induction as with
  | nil => intro _; rfl
  | cons a rest ih =>
    intro h
    have ha := h a (by simp)
    rw [firstFieldNames, ha]
    exact ih (fun b hb => h b (by simp [hb]))

/-- Claim C1 (amended): a text line whose aircraft id resolves to no
aircraft in the catalog still decodes to a record (with message id 0);
the synthetic field names `field_0`, `field_1`, … are used exactly when
the message name resolves on no aircraft in the catalog — the
field-name lookup of `_parse_message_data` scans all aircraft by
message name and ignores the line's aircraft id. -/
theorem text_decode_unknown_aircraft_best_effort :
    ∀ (cfg : AircraftConfig) (line p0 p1 p2 : List Char) (prest : List (List Char))
      (t : PFloat) (aid : Int),
      pySplitWs line = p0 :: p1 :: p2 :: prest →
      parsePyFloat p0 = some t →
      parsePyInt p1 = some aid →
      cfg.get_aircraft_by_id aid = none →
      (SimpleDataParser.parse_line (some cfg) line =
        some ⟨t, aid, String.mk p2, 0, utf8Encode line,
              if prest.isEmpty then []
              else SimpleDataParser.parse_message_data (some cfg) (joinSpace prest)
                (String.mk p2)⟩) ∧
      ((∀ a ∈ cfg.aircraft, a.get_message_definition (String.mk p2) = none) →
        SimpleDataParser.parse_message_data (some cfg) (joinSpace prest)
            (String.mk p2) =
          (SimpleDataParser.converted_values (joinSpace prest)).enum.map
              (fun p => ("field_" ++ pyStr p.1, FieldValue.scalar p.2)) ++
            [("_raw_values", FieldValue.vlist
                (SimpleDataParser.converted_values (joinSpace prest))),
             ("_raw_data", FieldValue.scalar
                (PyVal.pstr (String.mk (joinSpace prest))))]) := by
  intro cfg line p0 p1 p2 prest t aid hsplit ht ha hac
  constructor
  · simp only [SimpleDataParser.parse_line, hsplit, ht, ha, hac]
  · intro hnone
    have hff : firstFieldNames (String.mk p2) cfg.aircraft = [] :=
      firstFieldNames_eq_nil hnone
    have hsynth := synth_fold_general
      (SimpleDataParser.converted_values (joinSpace prest)) 0 []
      (fun j _ => rfl)
    simp only [List.nil_append] at hsynth
    simp only [SimpleDataParser.parse_message_data, hff, List.isEmpty_nil,
      if_pos]
    have henum : (SimpleDataParser.converted_values (joinSpace prest)).enum =
        List.enumFrom 0 (SimpleDataParser.converted_values (joinSpace prest)) := rfl
    rw [henum, hsynth]
    set conv := SimpleDataParser.converted_values (joinSpace prest) with hconv
    set mapped := (List.enumFrom 0 conv).map
      (fun p => ("field_" ++ pyStr p.1, FieldValue.scalar p.2)) with hmapped
    have hfresh1 : dictGet "_raw_values" mapped = none := by
      rw [hmapped]
      exact dictGet_synth_keys_none _ raw_values_ne_field_key _
    have h1 : dictInsert "_raw_values" (FieldValue.vlist conv) mapped =
        mapped ++ [("_raw_values", FieldValue.vlist conv)] :=
      dictInsert_fresh _ _ _ hfresh1
    rw [h1]
    have hfresh2a : dictGet "_raw_data" mapped = none := by
      rw [hmapped]
      exact dictGet_synth_keys_none _ raw_data_ne_field_key _
    have hfresh2 : dictGet "_raw_data"
        (mapped ++ [("_raw_values", FieldValue.vlist conv)]) = none := by
      rw [dictGet_append_right _ hfresh2a]
      simp [dictGet, show "_raw_values" ≠ "_raw_data" by decide]
    rw [dictInsert_fresh _ _ _ hfresh2, List.append_assoc]
    rfl

/-- Claim C10: every record built from a line with more than three
whitespace tokens carries, besides the per-field entries, the key
`_raw_values` mapping to the ordered list of all converted data values
and the key `_raw_data` mapping to the rejoined raw data portion of
the line, so the field map is never limited to the declared field
names. -/
theorem raw_values_raw_data_entries :
    ∀ (cfg : AircraftConfig) (line p0 p1 p2 : List Char) (prest : List (List Char))
      (m : Message),
      pySplitWs line = p0 :: p1 :: p2 :: prest →
      prest ≠ [] →
      SimpleDataParser.parse_line (some cfg) line = some m →
      dictGet "_raw_values" m.parsed_fields =
        some (FieldValue.vlist (SimpleDataParser.converted_values (joinSpace prest))) ∧
      dictGet "_raw_data" m.parsed_fields =
        some (FieldValue.scalar (PyVal.pstr (String.mk (joinSpace prest)))) := by
  intro cfg line p0 p1 p2 prest m hsplit hne hm
  cases ht : parsePyFloat p0 with
  | none => simp [SimpleDataParser.parse_line, hsplit, ht] at hm
  | some t =>
    cases ha : parsePyInt p1 with
    | none => simp [SimpleDataParser.parse_line, hsplit, ht, ha] at hm
    | some aid =>
      simp only [SimpleDataParser.parse_line, hsplit, ht, ha,
        Option.some.injEq] at hm
      have hpe : prest.isEmpty = false := by
        cases prest with
        | nil => exact absurd rfl hne
        | cons a b => rfl
      rw [← hm]
      simp only [hpe, Bool.false_eq_true, if_false]
      simp only [SimpleDataParser.parse_message_data]
      constructor
      · rw [dictGet_insert_ne _ _ (by decide), dictGet_insert_self]
      · rw [dictGet_insert_self]

/-- Claim C7: text decoding never fails as a whole — the output is the
per-line `filterMap` of the decoded lines, and a line that is blank,
whose first non-whitespace character is `#`, that has fewer than three
whitespace tokens, or whose timestamp or aircraft id does not parse
contributes no record while decoding continues with the next line. -/
theorem text_decode_line_error_recovery :
    ∀ (cfg : AircraftConfig) (st : Option AircraftConfig)
      (data_content : List Nat) (rawLine : List Char),
      ((SimpleDataParser.parse_data st data_content cfg).2 =
        (splitlinesCL (utf8DecodeIgnore data_content)).filterMap
          (SimpleDataParser.process_line (some cfg))) ∧
      (pyStrip rawLine = [] →
        SimpleDataParser.process_line (some cfg) rawLine = none) ∧
      ((pyStrip rawLine).head? = some '#' →
        SimpleDataParser.process_line (some cfg) rawLine = none) ∧
      ((pySplitWs (pyStrip rawLine)).length < 3 →
        SimpleDataParser.process_line (some cfg) rawLine = none) ∧
      (∀ p0 rest, pySplitWs (pyStrip rawLine) = p0 :: rest →
        parsePyFloat p0 = none →
        SimpleDataParser.process_line (some cfg) rawLine = none) ∧
      (∀ p0 p1 rest, pySplitWs (pyStrip rawLine) = p0 :: p1 :: rest →
        parsePyInt p1 = none →
        SimpleDataParser.process_line (some cfg) rawLine = none) := by
  intro cfg st data_content rawLine
  refine ⟨rfl, ?_, ?_, ?_, ?_, ?_⟩
  · intro h
    simp [SimpleDataParser.process_line, h]
  · intro h
    simp [SimpleDataParser.process_line, h]
  · intro h
    simp only [SimpleDataParser.process_line]
    split
    · rfl
    · rcases hs : pySplitWs (pyStrip rawLine) with _ | ⟨p0, _ | ⟨p1, _ | ⟨p2, prest⟩⟩⟩
      · simp [SimpleDataParser.parse_line, hs]
      · simp [SimpleDataParser.parse_line, hs]
      · simp [SimpleDataParser.parse_line, hs]
      · rw [hs] at h
        simp at h
        omega
  · intro p0 rest hs hf
    simp only [SimpleDataParser.process_line]
    split
    · rfl
    · rcases rest with _ | ⟨p1, _ | ⟨p2, prest⟩⟩ <;>
        simp [SimpleDataParser.parse_line, hs, hf]
  · intro p0 p1 rest hs hi
    simp only [SimpleDataParser.process_line]
    split
    · rfl
    · rcases rest with _ | ⟨p2, prest⟩
      · simp [SimpleDataParser.parse_line, hs]
      · cases hf : parsePyFloat p0 <;>
          simp [SimpleDataParser.parse_line, hs, hf, hi]

/-- Claim C4: conversion order of `_convert_value` in text
representation — a token with no decimal point or exponent marker that
parses as an integer yields that integer (so `"1"` yields integer 1
and `"0"` integer 0, not booleans), otherwise a floating-point parse
is tried; `true`/`yes` map to boolean true and `false`/`no` to boolean
false; `nan`/`null`/`none`, the empty token and `"-"` map to an absent
value; any other token is kept as a string. -/
theorem field_codec_text_conversion_order :
    (∀ (s : List Char) (n : Int),
        '.' ∉ pyStrip s → 'e' ∉ toLowerCL (pyStrip s) →
        parsePyInt (pyStrip s) = some n →
        SimpleDataParser.convert_value s = PyVal.pint n) ∧
    (∀ (s : List Char) (x : PFloat),
        pyStrip s ≠ [] → pyStrip s ≠ ['-'] →
        ('.' ∈ pyStrip s ∨ 'e' ∈ toLowerCL (pyStrip s)) →
        parsePyFloat (pyStrip s) = some x →
        SimpleDataParser.convert_value s = PyVal.pfloat x) ∧
    SimpleDataParser.convert_value "true".data = PyVal.pbool true ∧
    SimpleDataParser.convert_value "yes".data = PyVal.pbool true ∧
    SimpleDataParser.convert_value "false".data = PyVal.pbool false ∧
    SimpleDataParser.convert_value "no".data = PyVal.pbool false ∧
    SimpleDataParser.convert_value "nan".data = PyVal.pnone ∧
    SimpleDataParser.convert_value "null".data = PyVal.pnone ∧
    SimpleDataParser.convert_value "none".data = PyVal.pnone ∧
    SimpleDataParser.convert_value [] = PyVal.pnone ∧
    SimpleDataParser.convert_value "-".data = PyVal.pnone ∧
    SimpleDataParser.convert_value "1".data = PyVal.pint 1 ∧
    SimpleDataParser.convert_value "0".data = PyVal.pint 0 ∧
    (∀ (s : List Char),
        pyStrip s ≠ [] → pyStrip s ≠ ['-'] →
        ('.' ∉ pyStrip s ∧ 'e' ∉ toLowerCL (pyStrip s) →
          parsePyInt (pyStrip s) = none) →
        ('.' ∈ pyStrip s ∨ 'e' ∈ toLowerCL (pyStrip s) →
          parsePyFloat (pyStrip s) = none) →
        toLowerCL (pyStrip s) ∉ ["true".data, "yes".data, "1".data,
          "false".data, "no".data, "0".data, "nan".data, "null".data,
          "none".data] →
        SimpleDataParser.convert_value s = PyVal.pstr (String.mk (pyStrip s))) := by
  refine ⟨?_, ?_, by decide, by decide, by decide, by decide, by decide,
    by decide, by decide, by decide, by decide, by decide, by decide, ?_⟩
  · intro s n hdot he hint
    have hni : parsePyInt ([] : List Char) = none := by decide
    have hnm : parsePyInt ['-'] = none := by decide
    have hne : pyStrip s ≠ [] := by
      intro h; rw [h, hni] at hint; cases hint
    have hne2 : pyStrip s ≠ ['-'] := by
      intro h; rw [h, hnm] at hint; cases hint
    simp only [SimpleDataParser.convert_value]
    rw [if_neg (by tauto : ¬(pyStrip s = [] ∨ pyStrip s = ['-'])),
      if_pos (⟨hdot, he⟩ : '.' ∉ pyStrip s ∧ 'e' ∉ toLowerCL (pyStrip s)),
      hint]
    rfl
  · intro s x hne hne2 hd hfl
    have hC : ¬('.' ∉ pyStrip s ∧ 'e' ∉ toLowerCL (pyStrip s)) := by tauto
    simp only [SimpleDataParser.convert_value]
    rw [if_neg (by tauto : ¬(pyStrip s = [] ∨ pyStrip s = ['-'])),
      if_neg hC, hfl]
    rfl
  · intro s hne hne2 hint hfl hnotin
    simp only [List.mem_cons, List.not_mem_nil, or_false, not_or] at hnotin
    obtain ⟨g1, g2, g3, g4, g5, g6, g7, g8, g9⟩ := hnotin
    simp only [SimpleDataParser.convert_value]
    rw [if_neg (by tauto : ¬(pyStrip s = [] ∨ pyStrip s = ['-']))]
    by_cases hc : '.' ∉ pyStrip s ∧ 'e' ∉ toLowerCL (pyStrip s)
    · rw [if_pos hc, hint hc]
      split
      · next x hx => simp at hx
      · rw [if_neg (show ¬(toLowerCL (pyStrip s) = "true".data ∨
            toLowerCL (pyStrip s) = "yes".data ∨
            toLowerCL (pyStrip s) = "1".data) by
            rintro (h | h | h)
            exacts [g1 h, g2 h, g3 h]),
          if_neg (show ¬(toLowerCL (pyStrip s) = "false".data ∨
            toLowerCL (pyStrip s) = "no".data ∨
            toLowerCL (pyStrip s) = "0".data) by
            rintro (h | h | h)
            exacts [g4 h, g5 h, g6 h]),
          if_neg (show ¬(toLowerCL (pyStrip s) = "nan".data ∨
            toLowerCL (pyStrip s) = "null".data ∨
            toLowerCL (pyStrip s) = "none".data) by
            rintro (h | h | h)
            exacts [g7 h, g8 h, g9 h])]
    · rw [if_neg hc, hfl ((not_and_or.mp hc).imp not_not.mp not_not.mp)]
      split
      · next x hx => simp at hx
      · rw [if_neg (show ¬(toLowerCL (pyStrip s) = "true".data ∨
            toLowerCL (pyStrip s) = "yes".data ∨
            toLowerCL (pyStrip s) = "1".data) by
            rintro (h | h | h)
            exacts [g1 h, g2 h, g3 h]),
          if_neg (show ¬(toLowerCL (pyStrip s) = "false".data ∨
            toLowerCL (pyStrip s) = "no".data ∨
            toLowerCL (pyStrip s) = "0".data) by
            rintro (h | h | h)
            exacts [g4 h, g5 h, g6 h]),
          if_neg (show ¬(toLowerCL (pyStrip s) = "nan".data ∨
            toLowerCL (pyStrip s) = "null".data ∨
            toLowerCL (pyStrip s) = "none".data) by
            rintro (h | h | h)
            exacts [g7 h, g8 h, g9 h])]

lemma dictGet_mem {α : Type} (k : String) (v : α) :
    ∀ (d : List (String × α)), dictGet k d = some v → (k, v) ∈ d := by
  intro d
  induction d with
  | nil => intro h; cases h
  | cons p rest ih =>
    obtain ⟨k2, v2⟩ := p
    intro h
    by_cases he : k2 = k
    · rw [dictGet, if_pos he] at h
      obtain rfl := Option.some.inj h
      rw [he]
      exact List.mem_cons_self _ _
    · rw [dictGet, if_neg he] at h
      exact List.mem_cons_of_mem _ (ih h)

lemma parse_field_value_nonneg (data : List Nat) (f : MessageField)
    (hf : fieldLengthOk f = true) {v : FieldValue} {n : Int}
    (h : DataParser.parse_field_value data f = some (v, n)) : 0 ≤ n := by
  simp only [DataParser.parse_field_value] at h
  simp only [fieldLengthOk] at hf
  set ftl := toLowerCL f.field_type.data with hftl
  set ft := String.mk ftl with hft
  by_cases h0 : data.isEmpty = true
  · rw [if_pos h0] at h
    simp only [Option.some.injEq, Prod.mk.injEq] at h
    obtain ⟨-, hn⟩ := h
    omega
  · rw [if_neg h0] at h
    by_cases h1 : endsWithCL ftl "[]".data = true
    · rw [if_pos h1] at h
      simp only [Option.some.injEq, Prod.mk.injEq] at h
      obtain ⟨-, hn⟩ := h
      omega
    · rw [if_neg h1] at h
      by_cases h2 : ft = "float" ∨ ft = "float32"
      · rw [if_pos h2] at h
        by_cases ha : data.length < 4
        · rw [if_pos ha] at h
          simp only [Option.some.injEq, Prod.mk.injEq] at h
          obtain ⟨-, hn⟩ := h
          omega
        · rw [if_neg ha] at h
          simp only [Option.some.injEq, Prod.mk.injEq] at h
          obtain ⟨-, hn⟩ := h
          omega
      · rw [if_neg h2] at h
        by_cases h3 : ft = "double" ∨ ft = "float64"
        · rw [if_pos h3] at h
          by_cases ha : data.length < 8
          · rw [if_pos ha] at h
            simp only [Option.some.injEq, Prod.mk.injEq] at h
            obtain ⟨-, hn⟩ := h
            omega
          · rw [if_neg ha] at h
            simp only [Option.some.injEq, Prod.mk.injEq] at h
            obtain ⟨-, hn⟩ := h
            omega
        · rw [if_neg h3] at h
          by_cases h4 : ft = "int32" ∨ ft = "int"
          · rw [if_pos h4] at h
            by_cases ha : data.length < 4
            · rw [if_pos ha] at h
              simp only [Option.some.injEq, Prod.mk.injEq] at h
              obtain ⟨-, hn⟩ := h
              omega
            · rw [if_neg ha] at h
              simp only [Option.some.injEq, Prod.mk.injEq] at h
              obtain ⟨-, hn⟩ := h
              omega
          · rw [if_neg h4] at h
            by_cases h5 : ft = "uint32" ∨ ft = "uint"
            · rw [if_pos h5] at h
              by_cases ha : data.length < 4
              · rw [if_pos ha] at h
                simp only [Option.some.injEq, Prod.mk.injEq] at h
                obtain ⟨-, hn⟩ := h
                omega
              · rw [if_neg ha] at h
                simp only [Option.some.injEq, Prod.mk.injEq] at h
                obtain ⟨-, hn⟩ := h
                omega
            · rw [if_neg h5] at h
              by_cases h6 : ft = "int16" ∨ ft = "short"
              · rw [if_pos h6] at h
                by_cases ha : data.length < 2
                · rw [if_pos ha] at h
                  simp only [Option.some.injEq, Prod.mk.injEq] at h
                  obtain ⟨-, hn⟩ := h
                  omega
                · rw [if_neg ha] at h
                  simp only [Option.some.injEq, Prod.mk.injEq] at h
                  obtain ⟨-, hn⟩ := h
                  omega
              · rw [if_neg h6] at h
                by_cases h7 : ft = "uint16" ∨ ft = "ushort"
                · rw [if_pos h7] at h
                  by_cases ha : data.length < 2
                  · rw [if_pos ha] at h
                    simp only [Option.some.injEq, Prod.mk.injEq] at h
                    obtain ⟨-, hn⟩ := h
                    omega
                  · rw [if_neg ha] at h
                    simp only [Option.some.injEq, Prod.mk.injEq] at h
                    obtain ⟨-, hn⟩ := h
                    omega
                · rw [if_neg h7] at h
                  by_cases h8 : ft = "int8" ∨ ft = "char"
                  · rw [if_pos h8] at h
                    by_cases ha : data.length < 1
                    · rw [if_pos ha] at h
                      simp only [Option.some.injEq, Prod.mk.injEq] at h
                      obtain ⟨-, hn⟩ := h
                      omega
                    · rw [if_neg ha] at h
                      simp only [Option.some.injEq, Prod.mk.injEq] at h
                      obtain ⟨-, hn⟩ := h
                      omega
                  · rw [if_neg h8] at h
                    by_cases h9 : ft = "uint8" ∨ ft = "uchar"
                    · rw [if_pos h9] at h
                      by_cases ha : data.length < 1
                      · rw [if_pos ha] at h
                        simp only [Option.some.injEq, Prod.mk.injEq] at h
                        obtain ⟨-, hn⟩ := h
                        omega
                      · rw [if_neg ha] at h
                        simp only [Option.some.injEq, Prod.mk.injEq] at h
                        obtain ⟨-, hn⟩ := h
                        omega
                    · rw [if_neg h9] at h
                      by_cases h10 : startsWithCL ftl "char[".data = true
                      · rw [if_pos h10] at h
                        rw [if_neg h1, if_pos h10] at hf
                        cases heq : parsePyInt ((ftl.drop 5).dropLast) with
                        | none =>
                          rw [heq] at h
                          exact Option.noConfusion h
                        | some len =>
                          simp only [heq] at h hf
                          have hlen : (0 : Int) ≤ len := of_decide_eq_true hf
                          by_cases hlt : (data.length : Int) < len
                          · rw [if_pos hlt] at h
                            simp only [Option.some.injEq, Prod.mk.injEq] at h
                            obtain ⟨-, hn⟩ := h
                            omega
                          · rw [if_neg hlt] at h
                            simp only [Option.some.injEq, Prod.mk.injEq] at h
                            obtain ⟨-, hn⟩ := h
                            omega
                      · rw [if_neg h10] at h
                        simp only [Option.some.injEq, Prod.mk.injEq] at h
                        obtain ⟨-, hn⟩ := h
                        omega

lemma parse_message_fields_off_nonneg (data : List Nat) :
    ∀ (fields : List MessageField) (d0 : List (String × FieldValue)) (o0 : Int),
      0 ≤ o0 → (∀ f ∈ fields, fieldLengthOk f = true) →
      0 ≤ (fields.foldl (fun acc field =>
        match DataParser.parse_field_value (pySliceFrom acc.2 data) field with
        | some (v, n) => (dictInsert field.name v acc.1, acc.2 + n)
        | none => acc) (d0, o0)).2 := by
  intro fields
  induction fields with
  | nil => intro d0 o0 h0 _; simpa using h0
  | cons f rest ih =>
    intro d0 o0 h0 hok
    simp only [List.foldl_cons]
    cases hpf : DataParser.parse_field_value (pySliceFrom o0 data) f with
    | none =>
      simp only [hpf]
      exact ih d0 o0 h0 (fun g hg => hok g (by simp [hg]))
    | some vn =>
      obtain ⟨v, n⟩ := vn
      have hn := parse_field_value_nonneg (pySliceFrom o0 data) f
        (hok f (by simp)) hpf
      simp only [hpf]
      exact ih _ (o0 + n) (by omega) (fun g hg => hok g (by simp [hg]))

lemma parse_message_fields_nonneg (data : List Nat) (fields : List MessageField)
    (hok : ∀ f ∈ fields, fieldLengthOk f = true) :
    0 ≤ (DataParser.parse_message_fields data fields).2 := by
  simp only [DataParser.parse_message_fields]
  exact parse_message_fields_off_nonneg data fields [] 0 le_rfl hok

lemma parse_single_message_consumed (cfg : AircraftConfig) (data : List Nat)
    (hok : cfg.lengthsOk = true) (m : Message) (c : Int)
    (h : DataParser.parse_single_message cfg data = some (m, c)) : 8 ≤ c := by
  simp only [DataParser.parse_single_message] at h
  split at h
  · cases h
  · split at h
    · cases h
    · rename_i aircraft hga
      split at h
      · cases h
      · split at h
        · cases h
        · rename_i message_def hmd
          simp only [Option.some.injEq, Prod.mk.injEq] at h
          obtain ⟨-, hc⟩ := h
          have haircraft : aircraft ∈ cfg.aircraft := by
            simp only [AircraftConfig.get_aircraft_by_id] at hga
            exact List.mem_of_find?_eq_some hga
          have hmem := dictGet_mem _ _ _ hmd
          simp only [AircraftConfig.lengthsOk, List.all_eq_true] at hok
          have hfieldok : ∀ f ∈ message_def.fields, fieldLengthOk f = true :=
            hok aircraft haircraft _ hmem
          have hpf := parse_message_fields_nonneg
            (data.drop (8 + (DataParser.parse_string (data.drop 8)).2))
            message_def.fields hfieldok
          omega

lemma parse_data_loop_fuel (cfg : AircraftConfig) (data : List Nat)
    (hok : cfg.lengthsOk = true) :
    ∀ (f1 f2 : Nat) (offset : Int),
      (data.length : Int) ≤ offset + f1 → (data.length : Int) ≤ offset + f2 →
      DataParser.parse_data_loop cfg data f1 offset =
        DataParser.parse_data_loop cfg data f2 offset := by
  intro f1
  induction f1 with
  | zero =>
    intro f2 offset h1 _
    have ho : ¬offset < (data.length : Int) := by omega
    cases f2 with
    | zero => rfl
    | succ g => simp [DataParser.parse_data_loop, ho]
  | succ g ih =>
    intro f2 offset h1 h2
    cases f2 with
    | zero =>
      have ho : ¬offset < (data.length : Int) := by omega
      simp [DataParser.parse_data_loop, ho]
    | succ g2 =>
      by_cases ho : offset < (data.length : Int)
      · simp only [DataParser.parse_data_loop, if_pos ho]
        cases hpm : DataParser.parse_single_message cfg
            (pySliceFrom offset data) with
        | none =>
          simp only [hpm]
          exact ih g2 (offset + 1) (by omega) (by omega)
        | some mc =>
          obtain ⟨m, c⟩ := mc
          have hc := parse_single_message_consumed cfg _ hok m c hpm
          simp only [hpm]
          rw [ih g2 (offset + c) (by omega) (by omega)]
      · simp [DataParser.parse_data_loop, ho]

/-- Claim C6 (amended): the binary decode loop advances the offset by
exactly the consumed record length (an integer) on success and by
exactly one byte on any failure, and yields nothing once the offset
reaches the stream length; it terminates — any fuel at least the
stream length computes exactly `DataParser.parse_data`, every
successful parse consuming at least one byte — for every catalog whose
declared field lengths are nonnegative (`lengthsOk`), but not for
every catalog: a `char[N]` field with negative `N` makes a successful
record consume zero or negative bytes and the loop never advances. -/
theorem binary_decode_termination :
    ∀ (cfg : AircraftConfig) (data : List Nat),
      (∀ (fuel : Nat) (offset : Int) (m : Message) (c : Int),
        offset < (data.length : Int) →
        DataParser.parse_single_message cfg (pySliceFrom offset data) =
          some (m, c) →
        DataParser.parse_data_loop cfg data (fuel + 1) offset =
          m :: DataParser.parse_data_loop cfg data fuel (offset + c)) ∧
      (∀ (fuel : Nat) (offset : Int), offset < (data.length : Int) →
        DataParser.parse_single_message cfg (pySliceFrom offset data) = none →
        DataParser.parse_data_loop cfg data (fuel + 1) offset =
          DataParser.parse_data_loop cfg data fuel (offset + 1)) ∧
      (∀ (fuel : Nat) (offset : Int), (data.length : Int) ≤ offset →
        DataParser.parse_data_loop cfg data fuel offset = []) ∧
      (cfg.lengthsOk = true →
        (∀ (offset : Int) (m : Message) (c : Int),
          DataParser.parse_single_message cfg (pySliceFrom offset data) =
            some (m, c) → 1 ≤ c) ∧
        (∀ fuel : Nat, data.length ≤ fuel →
          DataParser.parse_data_loop cfg data fuel 0 =
            DataParser.parse_data data cfg)) := by
  intro cfg data
  refine ⟨?_, ?_, ?_, ?_⟩
  · intro fuel offset m c ho hpm
    simp only [DataParser.parse_data_loop, if_pos ho, hpm]
  · intro fuel offset ho hpm
    simp only [DataParser.parse_data_loop, if_pos ho, hpm]
  · intro fuel offset h
    have ho : ¬offset < (data.length : Int) := by omega
    cases fuel with
    | zero => rfl
    | succ g => simp [DataParser.parse_data_loop, ho]
  · intro hok
    refine ⟨?_, ?_⟩
    · intro offset m c h
      have := parse_single_message_consumed cfg _ hok m c h
      omega
    · intro fuel hf
      exact parse_data_loop_fuel cfg data hok fuel data.length 0 (by omega)
        (by omega)

/-- Counterexample to claim C6 as stated: under `badCfg`, whose only
message declares a `char[-10]` field, the valid record at the start of
`badData` parses successfully with consumed length 0, so the offset
never advances — three loop iterations from offset 0 emit the same
record three times without consuming anything, and the Python
`while offset < len(data_content)` loop never terminates. -/
theorem binary_decode_nontermination_counterexample :
    DataParser.parse_single_message badCfg badData = some (badMsg, 0) ∧
    DataParser.parse_data_loop badCfg badData 3 0 =
      [badMsg, badMsg, badMsg] := by
  exact ⟨by decide, by decide⟩

/-- Claim C8: `get_sessions_to_reprocess` returns the empty list,
whatever the session entries, when the current fingerprint equals the
stored one; otherwise it returns exactly the names of session
directories whose summary read fails (treated as stale) or whose
stored fingerprint differs from the current one. -/
theorem version_guard_sessions_to_reprocess :
    ∀ (env : VersionEnv) (output_exists : Bool)
      (entries : List (String × SessionEntry)),
      (env.currentHash = env.storedHash →
        ParserVersionManager.get_sessions_to_reprocess env output_exists
          entries = []) ∧
      (env.currentHash ≠ env.storedHash →
        ParserVersionManager.get_sessions_to_reprocess env true entries =
          entries.filterMap (fun e =>
            match e.2 with
            | SessionEntry.notDir => none
            | SessionEntry.dirNoSummary => none
            | SessionEntry.dirSummary none => some e.1
            | SessionEntry.dirSummary (some h) =>
              if h ≠ env.currentHash then some e.1 else none)) := by
  intro env output_exists entries
  constructor
  · intro h
    simp [ParserVersionManager.get_sessions_to_reprocess,
      ParserVersionManager.has_parser_changed, h]
  · intro h
    simp [ParserVersionManager.get_sessions_to_reprocess,
      ParserVersionManager.has_parser_changed, h]

/-- Claim C3 (amended): an aircraft element with no `ac_id` attribute
is kept with id defaulted to 0, while an element whose `ac_id`
attribute is present but unparseable is skipped with a recoverable
warning — the reverse of the claim's pairing of the two cases. -/
theorem aircraft_id_attribute_handling :
    ∀ (aircraft_elem : XmlElement),
      (aircraft_elem.get "ac_id" = none →
        LogParser.parse_aircraft aircraft_elem =
          some ⟨0, (aircraft_elem.get "name").getD "Unknown",
                (aircraft_elem.get "airframe").getD "", []⟩) ∧
      (∀ s, aircraft_elem.get "ac_id" = some s → parsePyInt s.data = none →
        LogParser.parse_aircraft aircraft_elem = none) := by
  intro e
  constructor
  · intro h
    simp [LogParser.parse_aircraft, h]
  · intro s h hp
    simp [LogParser.parse_aircraft, h, hp]

lemma dictGet_insert_cases {α : Type} (k k2 : String) (v : α)
    (d : List (String × α)) (h : dictGet k (dictInsert k2 v d) ≠ none) :
    k2 = k ∨ dictGet k d ≠ none := by
  by_cases he : k2 = k
  · exact Or.inl he
  · right
    rw [dictGet_insert_ne _ _ he] at h
    exact h

lemma msg_classes_fold_ok :
    ∀ (mcs : List XmlElement)
      (init : List (String × List (String × MessageDefinition))),
      (∀ mc ∈ mcs, msgClassIdOk mc = true) →
      ∃ classes, mcs.foldlM LogParser.msg_class_step init = Except.ok classes ∧
        (∀ k, dictGet k classes ≠ none →
          dictGet k init ≠ none ∨
            ∃ mc ∈ mcs, ((mc.get "NAME").getD "unknown") = k) := by
  intro mcs
  induction mcs with
  | nil =>
    intro init _
    exact ⟨init, rfl, fun k hk => Or.inl hk⟩
  | cons mc rest ih =>
    intro init hok
    have hmc := hok mc (by simp)
    have hstep : LogParser.msg_class_step init mc =
        Except.ok (dictInsert ((mc.get "NAME").getD "unknown")
          ((mc.findall "message").foldl
            (fun d m =>
              match LogParser.parse_message_definition m with
              | some md => dictInsert md.name md d
              | none => d) []) init) := by
      simp only [LogParser.msg_class_step]
      cases hid : mc.get "ID" with
      | none => rfl
      | some s =>
        simp only [msgClassIdOk, hid] at hmc
        cases hp : parsePyInt s.data with
        | none => rw [hp] at hmc; cases hmc
        | some i => simp [hp]
    obtain ⟨classes, hfold, hkeys⟩ := ih _ (fun b hb => hok b (by simp [hb]))
    refine ⟨classes, ?_, ?_⟩
    · rw [List.foldlM_cons, hstep]
      simpa using hfold
    · intro k hk
      rcases hkeys k hk with hinit | ⟨b, hb, hname⟩
      · rcases dictGet_insert_cases _ _ _ _ hinit with hname | hinit2
        · exact Or.inr ⟨mc, by simp, hname⟩
        · exact Or.inl hinit2
      · exact Or.inr ⟨b, by simp [hb], hname⟩

/-- Claim C2 (amended): catalog construction never fails over a
missing telemetry class — when every `msg_class` ID attribute parses,
`parse_log` succeeds even with aircraft present and no `telemetry`
class, and in that case every aircraft's message map is empty; no
`MissingTelemetryClass` failure exists in the code. -/
theorem schema_no_telemetry_class_not_fatal :
    ∀ (root : XmlElement),
      (∀ mc ∈ findAllDeep "msg_class" root, msgClassIdOk mc = true) →
      ∃ cfg, LogParser.parse_log root = Except.ok cfg ∧
        ((∀ mc ∈ findAllDeep "msg_class" root,
            mc.get "NAME" ≠ some "telemetry") →
          ∀ a ∈ cfg.aircraft, a.message_definitions = []) := by
  intro root hids
  obtain ⟨classes, hok, hkeys⟩ := msg_classes_fold_ok _ [] hids
  refine ⟨⟨((findAllDeep "aircraft" root).filterMap
      LogParser.parse_aircraft).map
    (fun a => ⟨a.ac_id, a.name, a.airframe,
      (dictGet "telemetry" classes).getD []⟩)⟩, ?_, ?_⟩
  · simp only [LogParser.parse_log, LogParser.parse_message_definitions, hok]
  · intro hname a ha
    have htel : dictGet "telemetry" classes = none := by
      by_contra hne
      rcases hkeys "telemetry" hne with h | ⟨mc, hmc, heq⟩
      · exact h rfl
      · cases hg : mc.get "NAME" with
        | none =>
          rw [hg] at heq
          exact absurd heq (by decide)
        | some s =>
          rw [hg] at heq
          simp only [Option.getD_some] at heq
          exact hname mc hmc (by rw [hg, heq])
    rw [htel] at ha
    simp only [List.mem_map] at ha
    obtain ⟨b, _, rfl⟩ := ha
    rfl

/-- Claim C5: under a catalog declaring aircraft id 3 with message
`GPS` having fields `lat:float32, lon:float32, alt:int16`, the text
line `"12.5 3 GPS 48.1,11.5,350"` decodes to exactly one record with
timestamp 12.5, aircraft id 3, message type `GPS`, and fields mapping
`lat` to 48.1, `lon` to 11.5 and `alt` to integer 350. -/
theorem gps_example_line_decodes :
    decodeText (utf8Encode "12.5 3 GPS 48.1,11.5,350".data) gpsConfig =
        [gpsMsg] ∧
      gpsMsg.timestamp = PFloat.finite (mkRat 25 2) ∧
      gpsMsg.aircraft_id = 3 ∧
      gpsMsg.message_type = "GPS" ∧
      dictGet "lat" gpsMsg.parsed_fields =
        some (FieldValue.scalar (PyVal.pfloat (PFloat.finite (mkRat 481 10)))) ∧
      dictGet "lon" gpsMsg.parsed_fields =
        some (FieldValue.scalar (PyVal.pfloat (PFloat.finite (mkRat 23 2)))) ∧
      dictGet "alt" gpsMsg.parsed_fields =
        some (FieldValue.scalar (PyVal.pint 350)) := by
  refine ⟨by decide, rfl, rfl, rfl, by decide, by decide, by decide⟩

/-- Claim C9: the text decoder is deterministic and has no hidden
mutable state across calls — the decoded sequence does not depend on
the decoder instance's prior `aircraft_config` state, and decoding the
same bytes again on the updated instance yields the same sequence. -/
theorem text_decode_idempotent :
    ∀ (data_content : List Nat) (cfg : AircraftConfig)
      (st1 st2 : Option AircraftConfig),
      ((SimpleDataParser.parse_data st1 data_content cfg).2 =
        (SimpleDataParser.parse_data st2 data_content cfg).2) ∧
      ((SimpleDataParser.parse_data
          (SimpleDataParser.parse_data st1 data_content cfg).1
          data_content cfg).2 =
        (SimpleDataParser.parse_data st1 data_content cfg).2) := by
  intro data_content cfg st1 st2
  exact ⟨rfl, rfl⟩

/-- Counterexample to claim C1 as stated: under `gpsConfig` (aircraft
id 3 only), the line `"12.5 99 GPS 48.1,11.5,350"` has an unresolvable
aircraft id 99, yet its record maps the declared field name `lat` (from
aircraft 3's `GPS`) and holds no synthetic key `field_0`. -/
theorem text_decode_unknown_aircraft_counterexample :
    (decodeText (utf8Encode "12.5 99 GPS 48.1,11.5,350".data) gpsConfig).map
        (fun m => (m.aircraft_id, dictGet "field_0" m.parsed_fields,
                   dictGet "lat" m.parsed_fields)) =
      [((99 : Int), none,
        some (FieldValue.scalar (PyVal.pfloat (PFloat.finite (mkRat 481 10)))))] := by
  decide

/-- Witness for claim C1's amended theorem at a concrete input: message
`VEL` is declared on no aircraft of `gpsConfig`, so the data tokens of
`"12.5 99 VEL 1 2"` map to synthetic names `field_0`, `field_1`. -/
theorem text_decode_unknown_aircraft_best_effort_witness :
    SimpleDataParser.parse_message_data (some gpsConfig)
        (joinSpace ["1".data, "2".data]) "VEL" =
      [("field_0", FieldValue.scalar (PyVal.pint 1)),
       ("field_1", FieldValue.scalar (PyVal.pint 2)),
       ("_raw_values", FieldValue.vlist [PyVal.pint 1, PyVal.pint 2]),
       ("_raw_data", FieldValue.scalar (PyVal.pstr "1 2"))] := by
  have h := (text_decode_unknown_aircraft_best_effort gpsConfig
      "12.5 99 VEL 1 2".data "12.5".data "99".data "VEL".data
      ["1".data, "2".data] (PFloat.finite (mkRat 25 2)) 99
      (by decide) (by decide) (by decide) (by decide)).2 (by decide)
  exact h.trans (by decide)

/-- Counterexample to claim C2 as stated: `c2Root` contains one
aircraft element and no `telemetry` message class, yet `parse_log`
returns a catalog successfully instead of failing. -/
theorem schema_no_telemetry_class_counterexample :
    LogParser.parse_log c2Root = Except.ok ⟨[⟨3, "X", "af", []⟩]⟩ := rfl

/-- Witness for claim C2's amended theorem at `c2Root`. -/
theorem schema_no_telemetry_class_not_fatal_witness :
    ∃ cfg, LogParser.parse_log c2Root = Except.ok cfg ∧
      ∀ a ∈ cfg.aircraft, a.message_definitions = [] := by
  obtain ⟨cfg, h1, h2⟩ := schema_no_telemetry_class_not_fatal c2Root (by decide)
  exact ⟨cfg, h1, h2 (by decide)⟩

/-- Counterexample to claim C3 as stated: in `c3Root` the aircraft with
the present but unparseable `ac_id="abc"` is skipped (the claim says it
is kept with id 0), while the aircraft with no `ac_id` attribute is
kept with id 0 (the claim says it is skipped). -/
theorem aircraft_id_attribute_counterexample :
    LogParser.parse_log c3Root = Except.ok ⟨[⟨0, "Z", "", []⟩]⟩ := rfl

/-- Witness for claim C3's amended theorem at `c3BadElem`. -/
theorem aircraft_id_attribute_handling_witness :
    LogParser.parse_aircraft c3BadElem = none :=
  (aircraft_id_attribute_handling c3BadElem).2 "abc" rfl (by decide)

/-- Witness for claim C4's theorem: the token `"42"` converts by the
integer clause to integer 42. -/
theorem field_codec_text_conversion_order_witness :
    SimpleDataParser.convert_value "42".data = PyVal.pint 42 :=
  field_codec_text_conversion_order.1 "42".data 42 (by decide) (by decide)
    (by decide)

/-- Witness for claim C6's amended theorem: `binCfg` declares no
negative field lengths, so fuel equal to the length of `binData`
already computes `parse_data`. -/
theorem binary_decode_termination_witness :
    DataParser.parse_data_loop binCfg binData 10 0 =
      DataParser.parse_data binData binCfg :=
  ((binary_decode_termination binCfg binData).2.2.2 (by decide)).2 10
    (by decide)

/-- Witness for claim C7's theorem: a comment line contributes no
record. -/
theorem text_decode_line_error_recovery_witness :
    SimpleDataParser.process_line (some gpsConfig) "# comment".data = none :=
  (text_decode_line_error_recovery gpsConfig none [] "# comment".data).2.2.1
    (by decide)

/-- Witness for claim C8's theorem: with equal fingerprints the result
is empty even though a stale-looking session entry is present. -/
theorem version_guard_sessions_to_reprocess_witness :
    ParserVersionManager.get_sessions_to_reprocess ⟨"abcd", "abcd"⟩ true
      [("session1", SessionEntry.dirSummary (some "old"))] = [] :=
  (version_guard_sessions_to_reprocess ⟨"abcd", "abcd"⟩ true
    [("session1", SessionEntry.dirSummary (some "old"))]).1 rfl

/-- Witness for claim C10's theorem at the example GPS line. -/
theorem raw_values_raw_data_entries_witness :
    dictGet "_raw_values" gpsMsg.parsed_fields =
        some (FieldValue.vlist (SimpleDataParser.converted_values
          (joinSpace ["48.1,11.5,350".data]))) ∧
      dictGet "_raw_data" gpsMsg.parsed_fields =
        some (FieldValue.scalar (PyVal.pstr (String.mk
          (joinSpace ["48.1,11.5,350".data])))) :=
  raw_values_raw_data_entries gpsConfig "12.5 3 GPS 48.1,11.5,350".data
    "12.5".data "3".data "GPS".data ["48.1,11.5,350".data] gpsMsg
    (by decide) (by decide) (by decide)
